import Mathlib

/-!
Second-price auction of `bid-test`.

A shallow embedding of `src/bid/bid.go` and of the request handler of
`src/main.go`, followed by the properties of the specification.

Modelling choices.

* Go's `int` is modelled by `Int`: the program only compares and copies
  prices, it never does arithmetic on them, so no overflow can occur.
* A closed, fully buffered `chan SourceDetails` that is drained by
  `for d := range details` is modelled by the `List SourceDetails` of the
  values it holds, in the order they were sent.
* The network is a parameter: the answer of `client.Get` for the task with
  index `i` is `client i`.  The order in which the goroutines of
  `getSourceDetails` reach their send is a parameter too, the schedule
  `sched : List Nat` of task indices.
-/

namespace BidTest

/-! ## Data model (`src/bid/bid.go`, lines 8-32) -/

/-- SourceDataItem is a single price item from a source response. -/
structure SourceDataItem where
  Price : Int
  deriving DecidableEq, Repr

/-- SourceData is the data a source returns in its response. -/
abbrev SourceData := List SourceDataItem

/-- SourceDetails is the combined data about a source and its prices. -/
structure SourceDetails where
  Source : String
  SourceData : SourceData
  deriving DecidableEq, Repr

/-- Result is the winner of a bid round: source and second price. The zero
value of Go, `Result{}`, is `⟨0, ""⟩`. -/
structure Result where
  Price : Int
  Source : String
  deriving DecidableEq, Repr

/-- The method `IsValid` of `Result`: `r.Price > 0 && r.Source != ""`. -/
def Result.IsValid (r : Result) : Bool :=
  decide (r.Price > 0) && (r.Source != "")

/-! ## `Calculate` (`src/bid/bid.go`, lines 39-64) -/

/-- One pass of the inner loop body of `Calculate`, for an item of the
source `src`, on the pair `(first, second)`. -/
def calcItem (src : String) (st : Result × Result) (item : SourceDataItem) :
    Result × Result :=
  if st.1.Price = 0 ∨ item.Price > st.1.Price then
    (⟨item.Price, src⟩, st.1)
  else if st.2.Price = 0 ∨ item.Price > st.2.Price then
    (st.1, ⟨item.Price, src⟩)
  else
    st

/-- One pass of the outer loop body of `Calculate`: the inner loop over
`d.SourceData`. -/
def calcDetails (st : Result × Result) (d : SourceDetails) : Result × Result :=
  d.SourceData.foldl (calcItem d.Source) st

/-- The two loops of `Calculate`, from `first = second = Result{}`. -/
def calcLoop (details : List SourceDetails) : Result × Result :=
  details.foldl calcDetails (⟨0, ""⟩, ⟨0, ""⟩)

/-- The lines after the loops: the first price is kept when there is no
second price, otherwise the second price replaces it. -/
def calcFinish (st : Result × Result) : Result :=
  if st.2.Price > 0 then ⟨st.2.Price, st.1.Source⟩ else st.1

/-- Calculate calculates the winner based on sources and prices. -/
def Calculate (details : List SourceDetails) : Result :=
  calcFinish (calcLoop details)

/-! ## `requestPrices`, `getSourceDetails`, `Bid` (lines 34-37, 66-107) -/

/-- A response body as `json.Unmarshal(body, &data)` with
`data : []SourceDataItem` sees it: either a body for which `Unmarshal`
returns an error, or an array of objects, each with the integer found under
the key `price`, if the object has such a member. -/
inductive Body where
  | malformed
  | array (items : List (Option Int))
  deriving DecidableEq, Repr

/-- The call `json.Unmarshal(body, &data)`: `none` is a non-nil error. A
member that is absent from an object leaves the zero value of the field. -/
def Unmarshal : Body → Option SourceData
  | .malformed => none
  | .array items => some (items.map fun p => ⟨p.getD 0⟩)

/-- The value `res` of `client.Get`: its status code, and what
`ioutil.ReadAll(res.Body)` gives, `none` being a read error. -/
structure Response where
  StatusCode : Nat
  Body : Option Body
  deriving DecidableEq, Repr

/-- The constant `http.StatusOK`. -/
def StatusOK : Nat := 200

/-- The function `requestPrices` for one source; `get` is the result of
`client.Get(source)`, `none` being a non-nil error. The value returned is
what the task sends on the channel: nothing, or one `SourceDetails`. -/
def requestPrices (get : Option Response) (source : String) : Option SourceDetails :=
  match get with
  | none => none
  | some res =>
    if res.StatusCode ≠ StatusOK then none
    else match res.Body with
      | none => none
      | some body =>
        match Unmarshal body with
        | none => none
        | some data => some ⟨source, data⟩

/-- The function `getSourceDetails`: one task per entry of `sources`, the
task of entry `i` receiving `client i` from `client.Get`. The tasks reach
the end of `requestPrices` in the order `sched`; the channel holds what
they sent, in that order. -/
def getSourceDetails (client : Nat → Option Response) (sources : List String)
    (sched : List Nat) : List SourceDetails :=
  sched.filterMap fun i =>
    match sources[i]? with
    | none => none
    | some source => requestPrices (client i) source

/-- Bid requests data from sources and returns the winner. -/
def Bid (client : Nat → Option Response) (sources : List String)
    (sched : List Nat) : Result :=
  Calculate (getSourceDetails client sources sched)

/-! ## The handler of `src/main.go` (lines 28-65) -/

/-- A request, as far as the handler reads it: `r.URL.Path` and the
key/value pairs of `r.URL.Query()` in the order of the query string. -/
structure Request where
  Path : String
  Query : List (String × String)
  deriving Repr

/-- The call `strings.Trim(s, "/")`: all leading and trailing slashes are
removed. -/
def trimSlashes (s : String) : String :=
  String.mk ((s.toList.dropWhile (· = '/')).reverse.dropWhile (· = '/')).reverse

/-- The value `r.URL.Query()["s"]`: the values of the key `s`, in order. -/
def querySources (r : Request) : List String :=
  r.Query.filterMap fun kv => if kv.1 = "s" then some kv.2 else none

/-- What the handler writes as the body: `writeError` encodes a map with
the message under `error`, `write` with a `Result` encodes the result. -/
inductive Payload where
  | error (message : String)
  | result (r : Result)
  deriving DecidableEq, Repr

/-- What one run of the handler does: the status given to `WriteHeader`,
the body, and the arguments of every call of `bid.Bid` it made. -/
structure Answer where
  status : Nat
  body : Payload
  bidCalls : List (List String)
  deriving DecidableEq, Repr

/-- The handler returned by `getWinnerHandler`; `bid` is `bid.Bid` with the
client of the handler. -/
def getWinnerHandler (bid : List String → Result) (r : Request) : Answer :=
  let path := trimSlashes r.Path
  if path ≠ "winner" then
    ⟨404, .error "Requested path not found", []⟩
  else
    let sources := querySources r
    if sources.length = 0 then
      ⟨400, .error "There must be at least one source", []⟩
    else
      let result := bid sources
      if !result.IsValid then
        ⟨422, .error "There is no prices", [sources]⟩
      else
        ⟨200, .result result, [sources]⟩

/-! ## Vocabulary of the properties -/

/-- An offer as `Calculate` meets it: the source it comes from and its
price. -/
abbrev Offer := String × Int

/-- The offers of a stream in the order in which `Calculate` processes
them: stream order, then the order inside each `SourceDetails`. -/
def offers (details : List SourceDetails) : List Offer :=
  details.flatMap fun d => d.SourceData.map fun item => (d.Source, item.Price)

/-- The prices of all offers of a stream, in processing order. -/
def prices (details : List SourceDetails) : List Int :=
  (offers details).map Prod.snd

/-- All offer prices of a stream, sorted in non-increasing order. -/
def sortedPrices (details : List SourceDetails) : List Int :=
  (prices details).insertionSort (· ≥ ·)

/-! ## The state of the loops -/

/-- The inner loop body on an offer. -/
def step (st : Result × Result) (o : Offer) : Result × Result :=
  calcItem o.1 st ⟨o.2⟩

/-- The inner loop body on prices alone. -/
def stepPrice (st : Int × Int) (x : Int) : Int × Int :=
  if st.1 = 0 ∨ x > st.1 then (x, st.1)
  else if st.2 = 0 ∨ x > st.2 then (st.1, x)
  else st

/-- The prices of the pair `(first, second)`. -/
def statePrices (st : Result × Result) : Int × Int :=
  (st.1.Price, st.2.Price)

/-- The first two elements of a list of prices, `0` standing for a missing
one. -/
def top2 : List Int → Int × Int
  | [] => (0, 0)
  | [a] => (a, 0)
  | a :: b :: _ => (a, b)

/-- All offers of the stream have a positive price. -/
def AllPositive (details : List SourceDetails) : Prop :=
  ∀ d ∈ details, ∀ item ∈ d.SourceData, 0 < item.Price

/-- All source identifiers of the stream are non-empty. -/
def SourcesNonEmpty (details : List SourceDetails) : Prop :=
  ∀ d ∈ details, d.Source ≠ ""

/-- Two `SourceDetails` of the same source with the same offers up to their
order. -/
def SameOffers (d e : SourceDetails) : Prop :=
  d.Source = e.Source ∧ d.SourceData.Perm e.SourceData

/-- The stream `t` is obtained from `s` by permuting the `SourceDetails`
values and permuting the offers inside each of them. -/
def StreamPerm (s t : List SourceDetails) : Prop :=
  ∃ u, s.Perm u ∧ List.Forall₂ SameOffers u t

/-- All offers that carry the maximum price come from one source. -/
def MaxFromOneSource (details : List SourceDetails) : Prop :=
  ∀ o ∈ offers details, ∀ o2 ∈ offers details,
    (∀ x ∈ offers details, x.2 ≤ o.2) → o2.2 = o.2 → o2.1 = o.1

/-- The price pair `st` of a run and the price pair `st2` of the run on the
positive prices alone agree on every slot that the second run has filled;
a slot that the second run left empty holds no positive price in the
first. -/
def AgreeOnPositive (st st2 : Int × Int) : Prop :=
  (0 < st2.1 ∧ st.1 = st2.1 ∧ ((0 < st2.2 ∧ st.2 = st2.2) ∨ (st2.2 = 0 ∧ st.2 ≤ 0))) ∨
  (st2.1 = 0 ∧ st2.2 = 0 ∧ st.1 ≤ 0 ∧ st.2 ≤ 0)

/-! ## The outcomes of the specification -/

/-- The outcome of the request to one source, as the specification lists
them: transport error or timeout, a status that is not OK, body read
failure, undecodable body, or a decoded offer list. -/
inductive Outcome where
  | transportError
  | badStatus
  | readFailure
  | undecodable
  | decoded (data : SourceData)
  deriving DecidableEq, Repr

/-- The outcome of a request whose `client.Get` gave `get`. -/
def outcome (get : Option Response) : Outcome :=
  match get with
  | none => .transportError
  | some res =>
    if res.StatusCode ≠ StatusOK then .badStatus
    else match res.Body with
      | none => .readFailure
      | some body =>
        match Unmarshal body with
        | none => .undecodable
        | some data => .decoded data

/-- The task of entry `i` ends with a decoded offer list. -/
def succeeded (client : Nat → Option Response) (i : Nat) : Bool :=
  match outcome (client i) with
  | .decoded _ => true
  | _ => false

/-- What the specification puts on the stream for entry `i` of the source
list: the source identifier with the decoded offers when the outcome is a
decoded offer list, nothing otherwise. -/
def entryDetails (client : Nat → Option Response) (sources : List String)
    (i : Nat) : Option SourceDetails :=
  match sources[i]?, outcome (client i) with
  | some source, .decoded data => some ⟨source, data⟩
  | _, _ => none

/-! ## Example inputs -/

/-- A stream of two sources with two offers each. -/
def exampleStream : List SourceDetails :=
  [⟨"fibo", [⟨13⟩, ⟨21⟩]⟩, ⟨"primes", [⟨19⟩, ⟨23⟩]⟩]

/-- The stream `exampleStream` with its two values swapped and the offers
inside each value swapped. -/
def examplePermuted : List SourceDetails :=
  [⟨"primes", [⟨23⟩, ⟨19⟩]⟩, ⟨"fibo", [⟨21⟩, ⟨13⟩]⟩]

/-- The prices of `exampleStream`, in the same order, under other source
identifiers. -/
def exampleRenamed : List SourceDetails :=
  [⟨"x", [⟨13⟩]⟩, ⟨"y", [⟨21⟩, ⟨19⟩, ⟨23⟩]⟩]

/-- Two sources that offer the same, highest, price. -/
def tieStream : List SourceDetails :=
  [⟨"a", [⟨5⟩]⟩, ⟨"b", [⟨5⟩]⟩]

/-- The stream `tieStream` with its two values swapped. -/
def tieSwapped : List SourceDetails :=
  [⟨"b", [⟨5⟩]⟩, ⟨"a", [⟨5⟩]⟩]

/-- A stream with one offer and a source without offers. -/
def singleStream : List SourceDetails :=
  [⟨"empty", []⟩, ⟨"single", [⟨17⟩]⟩]

/-- A stream in which the source `rand` holds the two highest offers, next
to offers that are not positive. -/
def sameSourceStream : List SourceDetails :=
  [⟨"low", [⟨0⟩, ⟨2⟩]⟩, ⟨"rand", [⟨34⟩, ⟨76⟩, ⟨-1⟩]⟩]

/-- The source `a` holds two offers that no offer exceeds, and the source
`b`, processed first, offers the same price. -/
def topTieStream : List SourceDetails :=
  [⟨"b", [⟨76⟩]⟩, ⟨"a", [⟨76⟩, ⟨76⟩]⟩]

/-- A response with status OK whose body holds a price of zero, an item
without price and a negative price. -/
def nonPositiveResponse : Response :=
  ⟨200, some (.array [some 5, some 0, none, some (-3)])⟩

/-- Four sources: a transport error, a status 503, an empty array and three
offers. -/
def exampleSources : List String :=
  ["timeout", "unavailable", "empty", "low"]

/-- The answers of the network to the four entries of `exampleSources`. -/
def exampleClient (i : Nat) : Option Response :=
  match i with
  | 1 => some ⟨503, some .malformed⟩
  | 2 => some ⟨200, some (.array [])⟩
  | 3 => some ⟨200, some (.array [some 3, some 2, some 1])⟩
  | _ => none

/-- A client that differs from `exampleClient` on failing entries only. -/
def exampleClient2 (i : Nat) : Option Response :=
  match i with
  | 0 => some ⟨200, none⟩
  | 1 => some ⟨200, some .malformed⟩
  | 2 => some ⟨200, some (.array [])⟩
  | 3 => some ⟨200, some (.array [some 3, some 2, some 1])⟩
  | _ => none

/-- A request to the winner path with two sources. -/
def exampleRequest : Request :=
  ⟨"/winner/", [("s", "a"), ("t", "x"), ("s", "b")]⟩

/-! ## The loops of `Calculate` as one fold over the offers -/

theorem calcDetails_eq_foldl_step (st : Result × Result) (d : SourceDetails) :
    calcDetails st d =
      (d.SourceData.map fun item => (d.Source, item.Price)).foldl step st := by
  unfold calcDetails
  rw [List.foldl_map]
  rfl

theorem foldl_calcDetails_eq (details : List SourceDetails) (st : Result × Result) :
    details.foldl calcDetails st = (offers details).foldl step st := by
  induction details generalizing st with
  | nil => rfl
  | cons d ds ih =>
    simp only [List.foldl_cons, offers, List.flatMap_cons, List.foldl_append]
    rw [ih, calcDetails_eq_foldl_step]
    rfl

theorem calcLoop_eq (details : List SourceDetails) :
    calcLoop details = (offers details).foldl step (⟨0, ""⟩, ⟨0, ""⟩) :=
  foldl_calcDetails_eq details _

theorem statePrices_step (st : Result × Result) (o : Offer) :
    statePrices (step st o) = stepPrice (statePrices st) o.2 := by
  unfold step calcItem stepPrice statePrices
  split_ifs <;> rfl

theorem statePrices_foldl (l : List Offer) (st : Result × Result) :
    statePrices (l.foldl step st) = (l.map Prod.snd).foldl stepPrice (statePrices st) := by
  induction l generalizing st with
  | nil => rfl
  | cons o l ih => simp only [List.foldl_cons, List.map_cons, ih, statePrices_step]

theorem statePrices_calcLoop (details : List SourceDetails) :
    statePrices (calcLoop details) = (prices details).foldl stepPrice (0, 0) := by
  rw [calcLoop_eq, statePrices_foldl]
  rfl

/-! ## The prices of the loop are the two highest prices -/

theorem top2_orderedInsert (x : Int) (L : List Int) (hx : 0 < x)
    (hpos : ∀ y ∈ L, 0 < y) (hs : L.Sorted (· ≥ ·)) :
    top2 (L.orderedInsert (· ≥ ·) x) = stepPrice (top2 L) x := by
  match L, hpos, hs with
  | [], _, _ => simp [top2, stepPrice]
  | [a], hpos, _ =>
    have ha : 0 < a := hpos a (by simp)
    by_cases h : x ≥ a
    · rcases eq_or_lt_of_le h with h1 | h1
      · subst h1
        simp [top2, stepPrice]
      · have : ¬ a = 0 := by omega
        simp [top2, stepPrice, h, h1, this]
    · have h1 : ¬ a = 0 := by omega
      have h2 : ¬ a < x := by omega
      simp [top2, stepPrice, h, h1, h2]
  | a :: b :: t, hpos, hs =>
    have ha : 0 < a := hpos a (by simp)
    have hb : 0 < b := hpos b (by simp)
    have hab : a ≥ b := by
      have := List.rel_of_sorted_cons hs b (by simp)
      exact this
    by_cases h : x ≥ a
    · simp only [List.orderedInsert, h, if_true, top2, stepPrice]
      by_cases h1 : a < x
      · simp [h1]
      · have e : x = a := by omega
        subst e
        have h3 : ¬ x = 0 := by omega
        have h4 : ¬ b = 0 := by omega
        by_cases h5 : b < x
        · simp [h3, h4, h5]
        · have : b = x := by omega
          simp [h3, h4, this]
    · have h1 : ¬ a = 0 := by omega
      have h2 : ¬ a < x := by omega
      have h4 : ¬ b = 0 := by omega
      by_cases h5 : x ≥ b
      · simp only [List.orderedInsert, h, h5, if_true, if_false, top2, stepPrice]
        by_cases h6 : b < x
        · simp [h1, h2, h4, h6]
        · have e : x = b := by omega
          subst e
          simp [h1, h2, h4]
      · have h6 : ¬ b < x := by omega
        simp only [List.orderedInsert, h, h5, if_false, top2, stepPrice]
        simp [h1, h2, h4, h6]

theorem foldr_stepPrice_eq (r : List Int) (hpos : ∀ y ∈ r, 0 < y) :
    r.foldr (fun x st => stepPrice st x) (0, 0) = top2 (r.insertionSort (· ≥ ·)) := by
  induction r with
  | nil => rfl
  | cons x r ih =>
    have hr : ∀ y ∈ r, 0 < y := fun y hy => hpos y (List.mem_cons_of_mem _ hy)
    rw [List.foldr_cons, ih hr, List.insertionSort]
    refine (top2_orderedInsert x _ (hpos x (List.mem_cons_self _ _)) ?_ ?_).symm
    · intro y hy
      exact hr y ((List.perm_insertionSort _ r).mem_iff.mp hy)
    · exact List.sorted_insertionSort _ r

theorem foldl_stepPrice_eq (l : List Int) (hpos : ∀ y ∈ l, 0 < y) :
    l.foldl stepPrice (0, 0) = top2 (l.insertionSort (· ≥ ·)) := by
  have h1 : l.foldl stepPrice (0, 0)
      = l.reverse.foldr (fun x st => stepPrice st x) (0, 0) := by
    rw [List.foldr_reverse]
  rw [h1, foldr_stepPrice_eq l.reverse (fun y hy => hpos y (List.mem_reverse.mp hy))]
  congr 1
  apply List.eq_of_perm_of_sorted (r := (· ≥ ·))
  · exact ((List.perm_insertionSort _ _).trans (List.reverse_perm l)).trans
      (List.perm_insertionSort _ _).symm
  · exact List.sorted_insertionSort _ _
  · exact List.sorted_insertionSort _ _

theorem mem_offers {details : List SourceDetails} {o : Offer} :
    o ∈ offers details ↔
      ∃ d ∈ details, ∃ item ∈ d.SourceData, o = (d.Source, item.Price) := by
  simp only [offers, List.mem_flatMap, List.mem_map]
  constructor
  · rintro ⟨d, hd, item, hi, rfl⟩
    exact ⟨d, hd, item, hi, rfl⟩
  · rintro ⟨d, hd, item, hi, rfl⟩
    exact ⟨d, hd, item, hi, rfl⟩

theorem AllPositive.offers_pos {details : List SourceDetails} (h : AllPositive details) :
    ∀ o ∈ offers details, 0 < o.2 := by
  intro o ho
  obtain ⟨d, hd, item, hi, rfl⟩ := mem_offers.mp ho
  exact h d hd item hi

theorem AllPositive.prices_pos {details : List SourceDetails} (h : AllPositive details) :
    ∀ y ∈ prices details, 0 < y := by
  intro y hy
  obtain ⟨o, ho, rfl⟩ := List.mem_map.mp hy
  exact h.offers_pos o ho

theorem statePrices_calcLoop_eq_top2 (details : List SourceDetails)
    (h : AllPositive details) :
    statePrices (calcLoop details) = top2 (sortedPrices details) := by
  rw [statePrices_calcLoop, foldl_stepPrice_eq _ h.prices_pos]
  rfl

/-! ## The source of the first slot -/

theorem step_fst (st : Result × Result) (o : Offer) :
    (step st o).1 = st.1 ∨ (step st o).1 = ⟨o.2, o.1⟩ := by
  unfold step calcItem
  split_ifs <;> simp

theorem first_foldl_mem (l : List Offer) (st : Result × Result) :
    (l.foldl step st).1 = st.1 ∨ ∃ o ∈ l, (l.foldl step st).1 = ⟨o.2, o.1⟩ := by
  induction l generalizing st with
  | nil => exact Or.inl rfl
  | cons o l ih =>
    rw [List.foldl_cons]
    rcases ih (step st o) with h | ⟨o2, ho2, h⟩
    · rcases step_fst st o with h1 | h1
      · exact Or.inl (h.trans h1)
      · exact Or.inr ⟨o, List.mem_cons_self _ _, h.trans h1⟩
    · exact Or.inr ⟨o2, List.mem_cons_of_mem _ ho2, h⟩

theorem first_calcLoop_mem (details : List SourceDetails) (h : offers details ≠ []) :
    ∃ o ∈ offers details, (calcLoop details).1 = ⟨o.2, o.1⟩ := by
  rw [calcLoop_eq]
  match hl : offers details, h with
  | o :: l, _ =>
    rw [List.foldl_cons]
    have h0 : (step (⟨0, ""⟩, ⟨0, ""⟩) o).1 = ⟨o.2, o.1⟩ := by
      simp [step, calcItem]
    rcases first_foldl_mem l (step (⟨0, ""⟩, ⟨0, ""⟩) o) with h1 | ⟨o2, ho2, h1⟩
    · exact ⟨o, List.mem_cons_self _ _, h1.trans h0⟩
    · exact ⟨o2, List.mem_cons_of_mem _ ho2, h1⟩

theorem first_foldl_lt (pre : List Offer) (p : Int) (st : Result × Result)
    (hst : st.1.Price < p) (hpre : ∀ x ∈ pre, x.2 < p) :
    (pre.foldl step st).1.Price < p := by
  induction pre generalizing st with
  | nil => exact hst
  | cons o l ih =>
    rw [List.foldl_cons]
    apply ih
    · rcases step_fst st o with h | h
      · rw [h]; exact hst
      · rw [h]; exact hpre o (List.mem_cons_self _ _)
    · exact fun x hx => hpre x (List.mem_cons_of_mem _ hx)

theorem first_foldl_keep (post : List Offer) (st : Result × Result)
    (hpos : 0 < st.1.Price) (hle : ∀ x ∈ post, x.2 ≤ st.1.Price) :
    (post.foldl step st).1 = st.1 := by
  induction post generalizing st with
  | nil => rfl
  | cons o l ih =>
    rw [List.foldl_cons]
    have ho : o.2 ≤ st.1.Price := hle o (List.mem_cons_self _ _)
    have h1 : (step st o).1 = st.1 := by
      unfold step calcItem
      have h0 : ¬ (st.1.Price = 0 ∨ o.2 > st.1.Price) := by omega
      simp only [h0, if_false]
      split_ifs <;> rfl
    rw [ih (step st o) (by rw [h1]; exact hpos)
      (fun x hx => by rw [h1]; exact hle x (List.mem_cons_of_mem _ hx)), h1]

theorem step_fst_of_lt (st : Result × Result) (o : Offer) (h : st.1.Price < o.2) :
    (step st o).1 = ⟨o.2, o.1⟩ := by
  unfold step calcItem
  have h0 : st.1.Price = 0 ∨ o.2 > st.1.Price := Or.inr h
  simp only [h0, if_true]

theorem first_foldl_earliest (pre post : List Offer) (o : Offer) (st : Result × Result)
    (hp : 0 < o.2) (hst : st.1.Price < o.2) (hpre : ∀ x ∈ pre, x.2 < o.2)
    (hpost : ∀ x ∈ post, x.2 ≤ o.2) :
    ((pre ++ o :: post).foldl step st).1 = ⟨o.2, o.1⟩ := by
  rw [List.foldl_append, List.foldl_cons]
  have h1 := first_foldl_lt pre o.2 st hst hpre
  have h2 : (step (pre.foldl step st) o).1 = ⟨o.2, o.1⟩ := step_fst_of_lt _ o h1
  rw [first_foldl_keep post _ (by rw [h2]; exact hp) (by rw [h2]; exact hpost), h2]

theorem Calculate_source (details : List SourceDetails) :
    (Calculate details).Source = (calcLoop details).1.Source := by
  unfold Calculate calcFinish
  split_ifs <;> rfl

theorem Calculate_price (details : List SourceDetails) :
    (Calculate details).Price =
      if (statePrices (calcLoop details)).2 > 0 then (statePrices (calcLoop details)).2
      else (statePrices (calcLoop details)).1 := by
  unfold Calculate calcFinish statePrices
  split_ifs <;> rfl

/-! ## Facts on the sorted prices -/

theorem length_sortedPrices (details : List SourceDetails) :
    (sortedPrices details).length = (offers details).length := by
  simp [sortedPrices, prices, List.length_insertionSort]

theorem mem_sortedPrices {details : List SourceDetails} {y : Int} :
    y ∈ sortedPrices details ↔ y ∈ prices details :=
  (List.perm_insertionSort _ _).mem_iff

theorem sorted_sortedPrices (details : List SourceDetails) :
    (sortedPrices details).Sorted (· ≥ ·) :=
  List.sorted_insertionSort _ _

theorem sortedPrices_cons_cons (details : List SourceDetails)
    (h2 : 2 ≤ (offers details).length) :
    ∃ a b t, sortedPrices details = a :: b :: t := by
  have hl := length_sortedPrices details
  match hs : sortedPrices details with
  | [] => rw [hs] at hl; simp at hl; omega
  | [a] => rw [hs] at hl; simp at hl; omega
  | a :: b :: t => exact ⟨a, b, t, rfl⟩

theorem offers_split (details : List SourceDetails) (i : Nat)
    (hi : i < (offers details).length) :
    offers details =
      (offers details).take i ++ (offers details)[i] :: (offers details).drop (i + 1) := by
  rw [List.getElem_cons_drop, List.take_append_drop]

theorem top2_fst_cons (a : Int) (t : List Int) : (top2 (a :: t)).1 = a := by
  cases t <;> rfl

theorem first_price_max (details : List SourceDetails) (hpos : AllPositive details)
    (o : Offer) (hfirst : (calcLoop details).1 = ⟨o.2, o.1⟩) (hne : offers details ≠ []) :
    ∀ x ∈ offers details, x.2 ≤ o.2 := by
  have hst := statePrices_calcLoop_eq_top2 details hpos
  have hl := length_sortedPrices details
  have hsorted := sorted_sortedPrices details
  match hs : sortedPrices details with
  | [] =>
    rw [hs] at hl
    exact absurd (List.length_eq_zero.mp hl.symm) hne
  | a :: t =>
    rw [hs] at hst hsorted
    have h1 : (statePrices (calcLoop details)).1 = o.2 := by
      unfold statePrices
      rw [hfirst]
    rw [hst, top2_fst_cons] at h1
    intro x hx
    have hx2 : x.2 ∈ sortedPrices details :=
      mem_sortedPrices.mpr (List.mem_map_of_mem _ hx)
    rw [hs] at hx2
    rcases List.mem_cons.mp hx2 with h | h
    · omega
    · have := List.rel_of_sorted_cons hsorted x.2 h
      omega

/-! ## Streams that differ by a permutation -/

theorem forall₂_sameOffers_offers {u t : List SourceDetails}
    (h : List.Forall₂ SameOffers u t) : (offers u).Perm (offers t) := by
  induction h with
  | nil => exact List.Perm.refl _
  | cons hd _ ih =>
    rename_i d e u t
    simp only [offers, List.flatMap_cons]
    refine List.Perm.append ?_ ih
    obtain ⟨h1, h2⟩ := hd
    rw [h1]
    exact h2.map _

theorem StreamPerm.offers_perm {s t : List SourceDetails} (h : StreamPerm s t) :
    (offers s).Perm (offers t) := by
  obtain ⟨u, h1, h2⟩ := h
  exact (List.Perm.flatMap_right _ h1).trans (forall₂_sameOffers_offers h2)

theorem allPositive_of_offers_pos {details : List SourceDetails}
    (h : ∀ o ∈ offers details, 0 < o.2) : AllPositive details := by
  intro d hd item hi
  exact h (d.Source, item.Price) (mem_offers.mpr ⟨d, hd, item, hi, rfl⟩)

theorem sortedPrices_eq_of_perm {s t : List SourceDetails}
    (h : (offers s).Perm (offers t)) : sortedPrices s = sortedPrices t := by
  apply List.eq_of_perm_of_sorted (r := (· ≥ ·))
  · exact ((List.perm_insertionSort _ _).trans (h.map _)).trans
      (List.perm_insertionSort _ _).symm
  · exact List.sorted_insertionSort _ _
  · exact List.sorted_insertionSort _ _

/-! ## Prices that are not positive -/

theorem agreeOnPositive_stepPrice_neg (st st2 : Int × Int) (x : Int)
    (h : AgreeOnPositive st st2) (hx : ¬ 0 < x) :
    AgreeOnPositive (stepPrice st x) st2 := by
  obtain ⟨a, b⟩ := st
  obtain ⟨a2, b2⟩ := st2
  unfold AgreeOnPositive at h ⊢
  unfold stepPrice
  simp only at h ⊢
  split_ifs <;> simp only [true_and, and_true] <;> omega

theorem agreeOnPositive_stepPrice_pos (st st2 : Int × Int) (x : Int)
    (h : AgreeOnPositive st st2) (hx : 0 < x) :
    AgreeOnPositive (stepPrice st x) (stepPrice st2 x) := by
  obtain ⟨a, b⟩ := st
  obtain ⟨a2, b2⟩ := st2
  unfold AgreeOnPositive at h ⊢
  unfold stepPrice
  simp only at h ⊢
  split_ifs <;> simp only [true_and, and_true] <;> omega

theorem agreeOnPositive_foldl (l : List Int) (st st2 : Int × Int)
    (h : AgreeOnPositive st st2) :
    AgreeOnPositive (l.foldl stepPrice st)
      ((l.filter fun x => decide (0 < x)).foldl stepPrice st2) := by
  induction l generalizing st st2 with
  | nil => exact h
  | cons x l ih =>
    by_cases hx : 0 < x
    · simp only [List.foldl_cons, List.filter_cons, hx, decide_True, if_true]
      exact ih _ _ (agreeOnPositive_stepPrice_pos st st2 x h hx)
    · simp only [List.foldl_cons, List.filter_cons, hx, decide_False]
      exact ih _ _ (agreeOnPositive_stepPrice_neg st st2 x h hx)

theorem agreeOnPositive_calcLoop (details : List SourceDetails) :
    AgreeOnPositive (statePrices (calcLoop details))
      (top2 (((prices details).filter fun x => decide (0 < x)).insertionSort (· ≥ ·))) := by
  rw [statePrices_calcLoop,
    ← foldl_stepPrice_eq _ (fun y hy => by simpa using (List.mem_filter.mp hy).2)]
  exact agreeOnPositive_foldl _ _ _ (Or.inr ⟨rfl, rfl, le_refl _, le_refl _⟩)

/-! ## The properties of `Calculate` -/

/-- C1: on a stream whose offers all have positive prices and which holds at
least two offers, the price of the result of Calculate is the second element
of all offer prices sorted in non-increasing order, its source is the source
of an offer that carries the maximum price, and the price is the maximum
when the maximum is offered at least twice. -/
theorem Calculate_second_price (details : List SourceDetails)
    (hpos : AllPositive details) (h2 : 2 ≤ (offers details).length) :
    (sortedPrices details)[1]? = some (Calculate details).Price ∧
    (∃ o ∈ offers details, (sortedPrices details)[0]? = some o.2 ∧
      o.1 = (Calculate details).Source) ∧
    (∀ m, (∀ y ∈ prices details, y ≤ m) → 2 ≤ (prices details).count m →
      (Calculate details).Price = m) := by
  obtain ⟨a, b, t, hs⟩ := sortedPrices_cons_cons details h2
  have hst := statePrices_calcLoop_eq_top2 details hpos
  rw [hs] at hst
  have hb : 0 < b :=
    hpos.prices_pos b (mem_sortedPrices.mp (by rw [hs]; simp))
  have hprice : (Calculate details).Price = b := by
    rw [Calculate_price, hst]
    simp [top2, hb]
  refine ⟨by rw [hs, hprice]; simp, ?_, ?_⟩
  · have hne : offers details ≠ [] := by
      intro h
      rw [h] at h2
      simp at h2
    obtain ⟨o, ho, hfirst⟩ := first_calcLoop_mem details hne
    refine ⟨o, ho, ?_, ?_⟩
    · have h1 : (statePrices (calcLoop details)).1 = o.2 := by
        unfold statePrices
        rw [hfirst]
      rw [hst] at h1
      rw [hs]
      simp only [top2] at h1
      simp [h1]
    · rw [Calculate_source, hfirst]
  · intro m hm hcount
    rw [hprice]
    have hperm : (sortedPrices details).Perm (prices details) :=
      List.perm_insertionSort _ _
    rw [← hperm.count_eq, hs] at hcount
    have hbm : b ≤ m := hm b (mem_sortedPrices.mp (by rw [hs]; simp))
    by_contra hne
    have hlt : b < m := lt_of_le_of_ne hbm hne
    have hsorted := sorted_sortedPrices details
    rw [hs] at hsorted
    have htail : ∀ y ∈ t, y ≤ b := by
      intro y hy
      have := List.rel_of_sorted_cons (List.Sorted.of_cons hsorted) y hy
      exact this
    have h0 : t.count m = 0 := by
      apply List.count_eq_zero_of_not_mem
      intro hmem
      have := htail m hmem
      omega
    rw [List.count_cons, List.count_cons, h0] at hcount
    have : (if b = m then 1 else 0 : Nat) = 0 := by simp [hne]
    simp only [beq_iff_eq] at hcount
    rw [this] at hcount
    split_ifs at hcount <;> omega

/-- C3: on a stream that holds exactly one offer, of price p from source s
(details with an empty offer list do not count), Calculate returns exactly
the result with price p and source s. This holds for every p, so for every
positive p. -/
theorem Calculate_single_offer (details : List SourceDetails) (s : String) (p : Int)
    (h1 : offers details = [(s, p)]) :
    Calculate details = ⟨p, s⟩ := by
  unfold Calculate
  rw [calcLoop_eq, h1]
  simp [step, calcItem, calcFinish]

/-- C4: on a stream with positive offer prices and non-empty source
identifiers, the result of Calculate is valid if and only if the stream
holds at least one offer; with no offer the result is the zero result; and a
result has a positive price exactly when it has a source. -/
theorem Calculate_valid_iff (details : List SourceDetails)
    (hpos : AllPositive details) (hsrc : SourcesNonEmpty details) :
    ((Calculate details).IsValid = true ↔ offers details ≠ []) ∧
    (offers details = [] → Calculate details = ⟨0, ""⟩) ∧
    ((Calculate details).Price > 0 ↔ (Calculate details).Source ≠ "") := by
  have hempty : offers details = [] → Calculate details = ⟨0, ""⟩ := by
    intro h
    unfold Calculate
    rw [calcLoop_eq, h]
    simp [calcFinish]
  have hfull : offers details ≠ [] →
      (Calculate details).Price > 0 ∧ (Calculate details).Source ≠ "" := by
    intro hne
    obtain ⟨o, ho, hfirst⟩ := first_calcLoop_mem details hne
    have hop : 0 < o.2 := hpos.offers_pos o ho
    have hos : o.1 ≠ "" := by
      obtain ⟨d, hd, item, _, rfl⟩ := mem_offers.mp ho
      exact hsrc d hd
    constructor
    · rw [Calculate_price]
      split_ifs with h
      · exact h
      · show (calcLoop details).1.Price > 0
        rw [hfirst]
        exact hop
    · rw [Calculate_source, hfirst]
      exact hos
  by_cases hne : offers details = []
  · have h0 := hempty hne
    refine ⟨?_, hempty, ?_⟩
    · rw [h0]
      simp [Result.IsValid, hne]
    · rw [h0]
      simp
  · obtain ⟨h1, h2⟩ := hfull hne
    refine ⟨?_, hempty, ?_⟩
    · simp [Result.IsValid, h1, h2, hne]
    · simp [h1, h2]

/-- C10: on a stream with positive offer prices and at least one offer, the
source of the result of Calculate is the source of the earliest processed
offer whose price is the maximum price of the stream. -/
theorem Calculate_source_earliest_max (details : List SourceDetails)
    (hpos : AllPositive details) (i : Nat) (hi : i < (offers details).length)
    (hmax : ∀ o ∈ offers details, o.2 ≤ ((offers details)[i]).2)
    (hfirst : ∀ j (hj : j < i), ((offers details)[j]).2 < ((offers details)[i]).2) :
    (Calculate details).Source = ((offers details)[i]).1 := by
  have hp : 0 < ((offers details)[i]).2 :=
    hpos.offers_pos _ (List.getElem_mem _)
  have hsplit := offers_split details i hi
  have hpre : ∀ x ∈ (offers details).take i, x.2 < ((offers details)[i]).2 := by
    intro x hx
    obtain ⟨j, hj, rfl⟩ := List.mem_iff_getElem.mp hx
    rw [List.getElem_take]
    have hj2 : j < i := by
      rw [List.length_take] at hj
      omega
    exact hfirst j hj2
  have hpost : ∀ x ∈ (offers details).drop (i + 1), x.2 ≤ ((offers details)[i]).2 :=
    fun x hx => hmax x (List.mem_of_mem_drop hx)
  have h := first_foldl_earliest _ _ _ (⟨0, ""⟩, ⟨0, ""⟩) hp (by simpa using hp) hpre hpost
  rw [← hsplit, ← calcLoop_eq] at h
  rw [Calculate_source, h]

theorem Result.eq_of (r r2 : Result) (h1 : r.Price = r2.Price)
    (h2 : r.Source = r2.Source) : r = r2 := by
  cases r
  cases r2
  simp_all

theorem Calculate_of_offers_nil (details : List SourceDetails)
    (h : offers details = []) : Calculate details = ⟨0, ""⟩ := by
  unfold Calculate
  rw [calcLoop_eq, h]
  simp [calcFinish]

/-- C2, as amended: on a stream with positive offer prices, permuting the
SourceDetails values and the offers inside each of them leaves the price of
the result of Calculate unchanged, and leaves the whole result unchanged
when all offers that carry the maximum price come from one source. -/
theorem Calculate_perm (s t : List SourceDetails) (hpos : AllPositive s)
    (h : StreamPerm s t) :
    (Calculate s).Price = (Calculate t).Price ∧
    (MaxFromOneSource s → Calculate s = Calculate t) := by
  have hperm := h.offers_perm
  have hpos_t : AllPositive t :=
    allPositive_of_offers_pos fun o ho => hpos.offers_pos o (hperm.mem_iff.mpr ho)
  have hstate : statePrices (calcLoop s) = statePrices (calcLoop t) := by
    rw [statePrices_calcLoop_eq_top2 s hpos, statePrices_calcLoop_eq_top2 t hpos_t,
      sortedPrices_eq_of_perm hperm]
  have hprice : (Calculate s).Price = (Calculate t).Price := by
    rw [Calculate_price, Calculate_price, hstate]
  refine ⟨hprice, fun hone => ?_⟩
  by_cases hne : offers s = []
  · have hne_t : offers t = [] := by
      rw [hne] at hperm
      exact List.Perm.nil_eq hperm |>.symm
    rw [Calculate_of_offers_nil s hne, Calculate_of_offers_nil t hne_t]
  · have hne_t : offers t ≠ [] := by
      intro h0
      rw [h0] at hperm
      exact hne (List.Perm.eq_nil hperm)
    obtain ⟨o, ho, hfirst⟩ := first_calcLoop_mem s hne
    obtain ⟨o2, ho2, hfirst2⟩ := first_calcLoop_mem t hne_t
    have hmax := first_price_max s hpos o hfirst hne
    have heq : o2.2 = o.2 := by
      have h1 : (statePrices (calcLoop s)).1 = (statePrices (calcLoop t)).1 := by
        rw [hstate]
      unfold statePrices at h1
      rw [hfirst, hfirst2] at h1
      exact h1.symm
    have hsrc := hone o ho o2 (hperm.mem_iff.mpr ho2) hmax heq
    apply Result.eq_of _ _ hprice
    rw [Calculate_source, Calculate_source, hfirst, hfirst2]
    exact hsrc.symm

/-- C7, as amended: the price of the result of Calculate depends on the
sequence of offer prices alone, whatever the source identifiers are; when
one source holds the two highest positive offers p1 and p2 of the stream (p2
at most p1, every other offer at most p2), the price of the result is p2;
and when moreover no offer of another source reaches p1, the source of the
result is that source. -/
theorem Calculate_price_ignores_sources :
    (∀ d1 d2 : List SourceDetails, prices d1 = prices d2 →
      (Calculate d1).Price = (Calculate d2).Price) ∧
    (∀ (details : List SourceDetails) (src : String) (p1 p2 : Int) (rest : List Offer),
      (offers details).Perm ((src, p1) :: (src, p2) :: rest) →
      0 < p2 → p2 ≤ p1 →
      (∀ o ∈ rest, o.2 ≤ p2) →
      (Calculate details).Price = p2 ∧
      ((∀ o ∈ rest, o.1 ≠ src → o.2 < p1) → Calculate details = ⟨p2, src⟩)) := by
  constructor
  · intro d1 d2 h
    rw [Calculate_price, Calculate_price, statePrices_calcLoop, statePrices_calcLoop, h]
  · intro details src p1 p2 rest hperm hp2 hle hrest
    have hp1 : 0 < p1 := lt_of_lt_of_le hp2 hle
    have hagree := agreeOnPositive_calcLoop details
    have hpp : ((prices details).filter fun x => decide (0 < x)).Perm
        (p1 :: p2 :: (rest.map Prod.snd).filter fun x => decide (0 < x)) := by
      have h1 := (hperm.map Prod.snd).filter fun x => decide (0 < x)
      simpa [prices, hp1, hp2] using h1
    have hsort : ((prices details).filter fun x => decide (0 < x)).insertionSort (· ≥ ·)
        = p1 :: p2 ::
          ((rest.map Prod.snd).filter fun x => decide (0 < x)).insertionSort (· ≥ ·) := by
      apply List.eq_of_perm_of_sorted (r := (· ≥ ·))
      · exact ((List.perm_insertionSort _ _).trans hpp).trans
          (((List.perm_insertionSort _ _).symm.cons p2).cons p1)
      · exact List.sorted_insertionSort _ _
      · have hmem : ∀ y ∈ ((rest.map Prod.snd).filter fun x =>
            decide (0 < x)).insertionSort (· ≥ ·), y ≤ p2 := by
          intro y hy
          have hy2 := (List.perm_insertionSort _ _).mem_iff.mp hy
          obtain ⟨o, ho, rfl⟩ := List.mem_map.mp (List.mem_filter.mp hy2).1
          exact hrest o ho
        refine List.sorted_cons.mpr
          ⟨?_, List.sorted_cons.mpr ⟨?_, List.sorted_insertionSort _ _⟩⟩
        · intro y hy
          rcases List.mem_cons.mp hy with h | h
          · rw [h]; exact hle
          · exact le_trans (hmem y h) hle
        · exact hmem
    rw [hsort] at hagree
    have hst : statePrices (calcLoop details) = (p1, p2) := by
      unfold AgreeOnPositive at hagree
      simp only [top2] at hagree
      apply Prod.ext <;> simp only <;> omega
    have hne : offers details ≠ [] := by
      intro h0
      rw [h0] at hperm
      exact absurd (List.Perm.nil_eq hperm) (by simp)
    obtain ⟨o, ho, hfirst⟩ := first_calcLoop_mem details hne
    have hoprice : o.2 = p1 := by
      have h1 : (statePrices (calcLoop details)).1 = p1 := by rw [hst]
      unfold statePrices at h1
      rw [hfirst] at h1
      exact h1
    have hprice : (Calculate details).Price = p2 := by
      rw [Calculate_price, hst]
      simp [hp2]
    refine ⟨hprice, fun htie => ?_⟩
    have hosrc : o.1 = src := by
      rcases List.mem_cons.mp (hperm.mem_iff.mp ho) with h | h
      · rw [h]
      · rcases List.mem_cons.mp h with h | h
        · rw [h]
        · by_contra hcon
          have := htie o h hcon
          omega
    apply Result.eq_of _ _ hprice
    rw [Calculate_source, hfirst]
    exact hosrc

/-! ## The source fetcher -/

theorem requestPrices_eq_outcome (get : Option Response) (source : String) :
    requestPrices get source =
      match outcome get with
      | .decoded data => some ⟨source, data⟩
      | _ => none := by
  unfold requestPrices outcome
  cases get with
  | none => rfl
  | some res =>
    obtain ⟨code, body⟩ := res
    simp only
    split_ifs
    · rfl
    · cases body with
      | none => rfl
      | some body =>
        simp only
        cases Unmarshal body <;> rfl

theorem getSourceDetails_eq (client : Nat → Option Response) (sources : List String)
    (sched : List Nat) :
    getSourceDetails client sources sched = sched.filterMap (entryDetails client sources) := by
  unfold getSourceDetails
  congr 1
  funext i
  unfold entryDetails
  cases sources[i]? with
  | none => rfl
  | some source =>
    simp only [requestPrices_eq_outcome]
    cases outcome (client i) <;> rfl

theorem entryDetails_of_not_succeeded (client : Nat → Option Response)
    (sources : List String) (i : Nat) (h : succeeded client i = false) :
    entryDetails client sources i = none := by
  unfold succeeded at h
  unfold entryDetails
  cases hs : sources[i]? <;> cases ho : outcome (client i) <;> simp_all

theorem filterMap_filter_succeeded (client : Nat → Option Response)
    (sources : List String) (l : List Nat) :
    (l.filter (succeeded client)).filterMap (entryDetails client sources) =
      l.filterMap (entryDetails client sources) := by
  induction l with
  | nil => rfl
  | cons i l ih =>
    cases h : succeeded client i
    · simp [List.filter_cons, h, List.filterMap_cons,
        entryDetails_of_not_succeeded client sources i h, ih]
    · simp [List.filter_cons, h, List.filterMap_cons, ih]

/-- C5, as amended: when requestPrices emits a SourceDetails, the response
had the status OK and a body that decodes to an array, and the SourceDetails
holds one offer for every item of that array, in order, with the price of
the item, or 0 when the item has no price: no item is discarded. -/
theorem requestPrices_keeps_every_item (get : Option Response) (source : String)
    (d : SourceDetails) (h : requestPrices get source = some d) :
    ∃ res items, get = some res ∧ res.StatusCode = StatusOK ∧
      res.Body = some (.array items) ∧
      d = ⟨source, items.map fun p => ⟨p.getD 0⟩⟩ := by
  unfold requestPrices at h
  cases get with
  | none => simp at h
  | some res =>
    obtain ⟨code, body⟩ := res
    simp only at h
    split_ifs at h with hc
    cases body with
    | none => simp at h
    | some b =>
      cases b with
      | malformed => simp [Unmarshal] at h
      | array items =>
        simp only [Unmarshal, Option.some.injEq] at h
        exact ⟨⟨code, some (.array items)⟩, items, rfl, not_not.mp hc, rfl, h.symm⟩

/-- C6: when the tasks finish in an order that is a permutation of the
entries of the source list, the stream built by getSourceDetails holds
exactly one SourceDetails for each entry whose outcome is a decoded offer
list and nothing for the others; Bid returns what Calculate returns on the
successful entries alone; and replacing failing outcomes by other failing
outcomes never changes the result. -/
theorem getSourceDetails_successful (client : Nat → Option Response)
    (sources : List String) (sched : List Nat)
    (hs : sched.Perm (List.range sources.length)) :
    (getSourceDetails client sources sched).Perm
      ((List.range sources.length).filterMap (entryDetails client sources)) ∧
    Bid client sources sched =
      Calculate ((sched.filter (succeeded client)).filterMap (entryDetails client sources)) ∧
    (∀ client2 : Nat → Option Response,
      (∀ i, succeeded client i = true ∨ succeeded client2 i = true → client2 i = client i) →
      Bid client2 sources sched = Bid client sources sched) := by
  refine ⟨?_, ?_, ?_⟩
  · rw [getSourceDetails_eq]
    exact hs.filterMap _
  · unfold Bid
    rw [getSourceDetails_eq, filterMap_filter_succeeded]
  · intro client2 h
    unfold Bid
    rw [getSourceDetails_eq, getSourceDetails_eq]
    congr 2
    funext i
    cases h1 : succeeded client i
    · cases h2 : succeeded client2 i
      · rw [entryDetails_of_not_succeeded client sources i h1,
          entryDetails_of_not_succeeded client2 sources i h2]
      · have := h i (Or.inr h2)
        unfold entryDetails
        rw [this]
    · have := h i (Or.inl h1)
      unfold entryDetails
      rw [this]

/-! ## The handler -/

/-- C8: the handler answers 404 when the trimmed path is not winner,
otherwise 400 when there is no source, otherwise 422 when the result of Bid
is not valid, otherwise 200 with that result as the body; on the winner path
with at least one source the status is 200 exactly when the result is valid;
and Bid is never called with an empty source list. -/
theorem getWinnerHandler_status (bid : List String → Result) (r : Request) :
    (trimSlashes r.Path ≠ "winner" → (getWinnerHandler bid r).status = 404) ∧
    (trimSlashes r.Path = "winner" → querySources r = [] →
      (getWinnerHandler bid r).status = 400) ∧
    (trimSlashes r.Path = "winner" → querySources r ≠ [] →
      (bid (querySources r)).IsValid = false →
      (getWinnerHandler bid r).status = 422) ∧
    (trimSlashes r.Path = "winner" → querySources r ≠ [] →
      (bid (querySources r)).IsValid = true →
      (getWinnerHandler bid r).status = 200 ∧
      (getWinnerHandler bid r).body = .result (bid (querySources r))) ∧
    (trimSlashes r.Path = "winner" → querySources r ≠ [] →
      ((getWinnerHandler bid r).status = 200 ↔ (bid (querySources r)).IsValid = true)) ∧
    (∀ c ∈ (getWinnerHandler bid r).bidCalls, c ≠ []) := by
  unfold getWinnerHandler
  refine ⟨?_, ?_, ?_, ?_, ?_, ?_⟩
  · intro h
    simp [h]
  · intro h1 h2
    simp [h1, h2]
  · intro h1 h2 h3
    simp [h1, h2, h3]
  · intro h1 h2 h3
    simp [h1, h2, h3]
  · intro h1 h2
    cases h3 : (bid (querySources r)).IsValid <;> simp [h1, h2, h3]
  · intro c hc
    simp only at hc
    split_ifs at hc with h1 h2 h3
    · simp at hc
    · simp at hc
    · simp only [List.mem_singleton] at hc
      rw [hc]
      intro h0
      exact h2 (by rw [h0]; rfl)
    · simp only [List.mem_singleton] at hc
      rw [hc]
      intro h0
      exact h2 (by rw [h0]; rfl)

/-! ## The properties on the example inputs -/

theorem Calculate_second_price_witness :
    AllPositive exampleStream ∧ 2 ≤ (offers exampleStream).length ∧
    (sortedPrices exampleStream)[1]? = some (Calculate exampleStream).Price ∧
    (Calculate exampleStream) = ⟨21, "primes"⟩ :=
  ⟨by unfold AllPositive; decide, by decide,
    (Calculate_second_price exampleStream (by unfold AllPositive; decide) (by decide)).1,
    by decide⟩

theorem Calculate_perm_counterexample :
    AllPositive tieStream ∧ StreamPerm tieStream tieSwapped ∧
    Calculate tieStream = ⟨5, "a"⟩ ∧ Calculate tieSwapped = ⟨5, "b"⟩ ∧
    (Calculate tieStream).Source ≠ (Calculate tieSwapped).Source :=
  ⟨by unfold AllPositive; decide,
    ⟨tieSwapped, by decide,
      List.Forall₂.cons ⟨rfl, List.Perm.refl _⟩
        (List.Forall₂.cons ⟨rfl, List.Perm.refl _⟩ List.Forall₂.nil)⟩,
    by decide, by decide, by decide⟩

theorem Calculate_perm_witness :
    AllPositive exampleStream ∧ StreamPerm exampleStream examplePermuted ∧
    MaxFromOneSource exampleStream ∧
    (Calculate exampleStream).Price = (Calculate examplePermuted).Price ∧
    Calculate exampleStream = Calculate examplePermuted :=
  have hpos : AllPositive exampleStream := by unfold AllPositive; decide
  have hperm : StreamPerm exampleStream examplePermuted :=
    ⟨[⟨"primes", [⟨19⟩, ⟨23⟩]⟩, ⟨"fibo", [⟨13⟩, ⟨21⟩]⟩], by decide,
      List.Forall₂.cons ⟨rfl, by decide⟩
        (List.Forall₂.cons ⟨rfl, by decide⟩ List.Forall₂.nil)⟩
  have hone : MaxFromOneSource exampleStream := by unfold MaxFromOneSource; decide
  ⟨hpos, hperm, hone, (Calculate_perm exampleStream examplePermuted hpos hperm).1,
    (Calculate_perm exampleStream examplePermuted hpos hperm).2 hone⟩

theorem Calculate_single_offer_witness :
    offers singleStream = [("single", 17)] ∧ Calculate singleStream = ⟨17, "single"⟩ :=
  ⟨by decide, Calculate_single_offer singleStream "single" 17 (by decide)⟩

theorem Calculate_valid_iff_witness :
    AllPositive singleStream ∧ SourcesNonEmpty singleStream ∧
    ((Calculate singleStream).IsValid = true ↔ offers singleStream ≠ []) ∧
    (offers singleStream = [] → Calculate singleStream = ⟨0, ""⟩) ∧
    ((Calculate singleStream).Price > 0 ↔ (Calculate singleStream).Source ≠ "") :=
  ⟨by unfold AllPositive; decide, by unfold SourcesNonEmpty; decide,
    Calculate_valid_iff singleStream (by unfold AllPositive; decide)
      (by unfold SourcesNonEmpty; decide)⟩

theorem Calculate_price_ignores_sources_witness :
    prices exampleStream = prices exampleRenamed ∧
    (Calculate exampleStream).Price = (Calculate exampleRenamed).Price ∧
    (offers sameSourceStream).Perm
      (("rand", 76) :: ("rand", 34) :: [("low", 0), ("low", 2), ("rand", -1)]) ∧
    (Calculate sameSourceStream).Price = 34 ∧
    Calculate sameSourceStream = ⟨34, "rand"⟩ ∧
    (Calculate topTieStream).Price = 76 :=
  have h := Calculate_price_ignores_sources.2 sameSourceStream "rand" 76 34
    [("low", 0), ("low", 2), ("rand", -1)] (by decide) (by decide) (by decide) (by decide)
  ⟨by decide,
    Calculate_price_ignores_sources.1 exampleStream exampleRenamed (by decide),
    by decide, h.1, h.2 (by decide),
    (Calculate_price_ignores_sources.2 topTieStream "a" 76 76 [("b", 76)]
      (by decide) (by decide) (by decide) (by decide)).1⟩

theorem Calculate_same_source_counterexample :
    (offers topTieStream).Perm (("a", 76) :: ("a", 76) :: [("b", 76)]) ∧
    (∀ o ∈ [(("b", 76) : Offer)], o.2 ≤ 76) ∧
    Calculate topTieStream = ⟨76, "b"⟩ ∧
    Calculate topTieStream ≠ ⟨76, "a"⟩ :=
  ⟨by decide, by decide, by decide, by decide⟩

theorem Calculate_source_earliest_max_witness :
    AllPositive tieStream ∧ offers tieStream = [("a", 5), ("b", 5)] ∧
    (Calculate tieStream).Source = "a" :=
  ⟨by unfold AllPositive; decide, by decide,
    Calculate_source_earliest_max tieStream (by unfold AllPositive; decide) 0 (by decide)
      (by decide) (fun j hj => absurd hj (Nat.not_lt_zero j))⟩

theorem requestPrices_keeps_nonpositive :
    requestPrices (some nonPositiveResponse) "a" = some ⟨"a", [⟨5⟩, ⟨0⟩, ⟨0⟩, ⟨-3⟩]⟩ ∧
    ¬ (∀ d, requestPrices (some nonPositiveResponse) "a" = some d →
      ∀ item ∈ d.SourceData, 0 < item.Price) := by
  have h : requestPrices (some nonPositiveResponse) "a"
      = some ⟨"a", [⟨5⟩, ⟨0⟩, ⟨0⟩, ⟨-3⟩]⟩ := by decide
  refine ⟨h, fun hall => ?_⟩
  have := hall _ h ⟨0⟩ (by decide)
  exact absurd this (by decide)

theorem requestPrices_keeps_every_item_witness :
    requestPrices (some nonPositiveResponse) "a" = some ⟨"a", [⟨5⟩, ⟨0⟩, ⟨0⟩, ⟨-3⟩]⟩ ∧
    ∃ res items, some nonPositiveResponse = some res ∧ res.StatusCode = StatusOK ∧
      res.Body = some (.array items) ∧
      (⟨"a", [⟨5⟩, ⟨0⟩, ⟨0⟩, ⟨-3⟩]⟩ : SourceDetails) =
        ⟨"a", items.map fun p => ⟨p.getD 0⟩⟩ :=
  ⟨by decide,
    requestPrices_keeps_every_item (some nonPositiveResponse) "a"
      ⟨"a", [⟨5⟩, ⟨0⟩, ⟨0⟩, ⟨-3⟩]⟩ (by decide)⟩

theorem getSourceDetails_successful_witness :
    [3, 1, 0, 2].Perm (List.range exampleSources.length) ∧
    (getSourceDetails exampleClient exampleSources [3, 1, 0, 2]).Perm
      [⟨"empty", []⟩, ⟨"low", [⟨3⟩, ⟨2⟩, ⟨1⟩]⟩] ∧
    Bid exampleClient exampleSources [3, 1, 0, 2] = ⟨2, "low"⟩ ∧
    Bid exampleClient2 exampleSources [3, 1, 0, 2] = ⟨2, "low"⟩ :=
  have h := getSourceDetails_successful exampleClient exampleSources [3, 1, 0, 2] (by decide)
  ⟨by decide, h.1, h.2.1.trans (by decide),
    (h.2.2 exampleClient2 (by
      intro i hi
      match i, hi with
      | 0, hi => simp [succeeded, outcome, exampleClient, exampleClient2, StatusOK] at hi
      | 1, hi => simp [succeeded, outcome, exampleClient, exampleClient2, StatusOK,
          Unmarshal] at hi
      | 2, _ => rfl
      | 3, _ => rfl
      | _ + 4, _ => rfl)).trans (h.2.1.trans (by decide))⟩

theorem getWinnerHandler_status_witness :
    trimSlashes exampleRequest.Path = "winner" ∧
    querySources exampleRequest = ["a", "b"] ∧
    (getWinnerHandler (fun _ => ⟨21, "a"⟩) exampleRequest).status = 200 ∧
    (getWinnerHandler (fun _ => ⟨21, "a"⟩) exampleRequest).body = .result ⟨21, "a"⟩ ∧
    (getWinnerHandler (fun _ => ⟨0, ""⟩) exampleRequest).status = 422 ∧
    (getWinnerHandler (fun _ => ⟨21, "a"⟩) ⟨"/winner", []⟩).status = 400 ∧
    (getWinnerHandler (fun _ => ⟨21, "a"⟩) ⟨"/loser", [("s", "a")]⟩).status = 404 :=
  have h1 := getWinnerHandler_status (fun _ => ⟨21, "a"⟩) exampleRequest
  have h2 := getWinnerHandler_status (fun _ => ⟨0, ""⟩) exampleRequest
  have h3 := getWinnerHandler_status (fun _ => ⟨21, "a"⟩) ⟨"/winner", []⟩
  have h4 := getWinnerHandler_status (fun _ => ⟨21, "a"⟩) ⟨"/loser", [("s", "a")]⟩
  ⟨by decide, by decide,
    (h1.2.2.2.1 (by decide) (by decide) (by decide)).1,
    (h1.2.2.2.1 (by decide) (by decide) (by decide)).2,
    h2.2.2.1 (by decide) (by decide) (by decide),
    h3.2.1 (by decide) (by decide),
    h4.1 (by decide)⟩

end BidTest
